import Mathlib

/-!
Shallow embedding of the node core of the valois-sdk repository
(framework/src/node/node.ts and elements/lisk-transactions), together with
theorems settling the specification claims about it.

Transactions, blocks, addresses and keys are embedded with `Nat` ids; machine
numbers of the source are embedded as `Nat` (the source only compares and adds
them in the regions modelled here, so no overflow wrapping is involved).
Fallible operations return `Except String`.
-/

/-! ## Forging tick (node.ts, `Node._forgingTask`) -/

/-- State of the node observed by one forging tick: whether any local delegate
is enabled, whether the synchronizer is active, and an abstract chain state
(what `forger.forge` may mutate). -/
structure NodeForgeState where
  delegatesEnabled : Bool
  syncIsActive : Bool
  chain : Nat
deriving Repr, DecidableEq

/-- Embedding of `Node._forgingTask` (node.ts lines 590-604): return early when
no delegates are enabled; return early when `synchronizer.isActive`; otherwise
invoke `forger.forge`, which may mutate chain state.  The `Bool` component
records whether `forge` was invoked. -/
def forgingTask (forge : Nat → Nat) (s : NodeForgeState) : NodeForgeState × Bool :=
  if !s.delegatesEnabled then (s, false)
  else if s.syncIsActive then (s, false)
  else ({ s with chain := forge s.chain }, true)

/-! ## Bootstrap (node.ts, `Node.bootstrap`) -/

/-- Account schema contributed by a custom module: the `fieldNumber` assigned
at registration plus opaque schema content. -/
structure AccountSchema where
  fieldNumber : Nat
  schemaData : Nat
deriving Repr, DecidableEq

/-- A custom module as seen by `Node.bootstrap`: its id, name, and optional
account schema. -/
structure CustomModule where
  id : Nat
  name : String
  accountSchema : Option AccountSchema
deriving Repr, DecidableEq

/-- Embedding of the object write `_registeredAccountSchemas[name] = ...`
(node.ts line 161): the schema map holds at most one entry per name, and
writing a name that is already present overwrites the previous entry.  The map
is represented as an association list; the position of an entry within it is
not significant. -/
def schemaMapInsert (schemas : List (String × AccountSchema)) (moduleName : String)
    (s : AccountSchema) : List (String × AccountSchema) :=
  schemas.filter (fun p => p.1 != moduleName) ++ [(moduleName, s)]

/-- Embedding of the custom-module registration loop of `Node.bootstrap`
(node.ts lines 153-167): modules are processed in order; a module whose id is
already registered raises an error; a module with an account schema writes it
into the name-keyed schema map with `fieldNumber` overridden to the module id
(overwriting any earlier module of the same name).
`regs` and `schemas` are the accumulators (empty at the real call site). -/
def registerCustomModules : List CustomModule → List CustomModule →
    List (String × AccountSchema) →
    Except String (List CustomModule × List (String × AccountSchema))
  | [], regs, schemas => .ok (regs, schemas)
  | m :: rest, regs, schemas =>
    if regs.any (fun r => r.id == m.id) then
      .error "Custom module with this type already exists"
    else
      match m.accountSchema with
      | some s =>
        registerCustomModules rest (regs ++ [m])
          (schemaMapInsert schemas m.name { s with fieldNumber := m.id })
      | none => registerCustomModules rest (regs ++ [m]) schemas

/-- Configuration options read by `Node.bootstrap`. -/
structure NodeOptions where
  waitThreshold : Nat
  blockTime : Nat
  hasGenesisBlock : Bool
deriving Repr, DecidableEq

/-- Embedding of the `forging.waitThreshold` guard of `Node.bootstrap`
(node.ts lines 174-179): an error when `waitThreshold >= blockTime`. -/
def waitThresholdCheck (opts : NodeOptions) : Except String Unit :=
  if opts.blockTime ≤ opts.waitThreshold then
    .error "forging.waitThreshold is greater or equal to genesisConfig.blockTime"
  else .ok ()

/-- Result of a successful bootstrap. -/
structure BootResult where
  registeredModules : List CustomModule
  accountSchemas : List (String × AccountSchema)
  chainInitialized : Bool
deriving Repr, DecidableEq

/-- Embedding of `Node.bootstrap` (node.ts lines 145-283) up to chain
initialization, in source order: missing genesis block check, custom module
registration, `waitThreshold` guard, then `_initModules` (chain creation). -/
def bootstrap (opts : NodeOptions) (mods : List CustomModule) : Except String BootResult :=
  if !opts.hasGenesisBlock then .error "Missing genesis block"
  else
    match registerCustomModules mods [] [] with
    | .error e => .error e
    | .ok (regs, schemas) =>
      match waitThresholdCheck opts with
      | .error e => .error e
      | .ok _ =>
        .ok { registeredModules := regs, accountSchemas := schemas, chainInitialized := true }

/-! ## Theorems: C1, C2 -/

/-- C1: for every forging tick, if the synchronizer is active then the tick is
a no-op: `forge` is not invoked and the state (chain included) is unchanged,
regardless of the forge function (hence even when the current time lies inside
a locally unlocked delegate's slot). -/
theorem forgingTask_noop_when_sync_active (forge : Nat → Nat) (s : NodeForgeState)
    (h : s.syncIsActive = true) : forgingTask forge s = (s, false) := by
  unfold forgingTask
  cases hd : s.delegatesEnabled <;> simp [hd, h]

/-- Witness for C1 at a concrete state with delegates enabled and the
synchronizer active. -/
theorem forgingTask_noop_when_sync_active_witness :
    forgingTask Nat.succ ⟨true, true, 7⟩ = (⟨true, true, 7⟩, false) :=
  forgingTask_noop_when_sync_active Nat.succ ⟨true, true, 7⟩ rfl

/-- C2: bootstrap fails whenever `forging.waitThreshold ≥ genesisConfig.blockTime`,
and for every configuration with `waitThreshold < blockTime` the threshold
check passes. -/
theorem bootstrap_waitThreshold_guard (opts : NodeOptions) (mods : List CustomModule) :
    (opts.blockTime ≤ opts.waitThreshold → (bootstrap opts mods).isOk = false)
    ∧ (opts.waitThreshold < opts.blockTime → waitThresholdCheck opts = .ok ()) := by
  constructor
  · intro hge
    unfold bootstrap waitThresholdCheck
    cases hg : opts.hasGenesisBlock
    · simp [Except.isOk, Except.toBool]
    · simp only [Bool.not_true, Bool.false_eq_true, if_false]
      cases hr : registerCustomModules mods [] [] with
      | error e => simp [Except.isOk, Except.toBool]
      | ok r => cases r with
        | mk regs schemas => simp [hge, Except.isOk, Except.toBool]
  · intro hlt
    unfold waitThresholdCheck
    simp [Nat.not_le.mpr hlt]

/-- Witness for C2: a configuration with `waitThreshold = blockTime = 10`
fails bootstrap, and one with `waitThreshold = 2 < blockTime = 10` passes the
check. -/
theorem bootstrap_waitThreshold_guard_witness :
    (bootstrap ⟨10, 10, true⟩ []).isOk = false
    ∧ waitThresholdCheck ⟨2, 10, true⟩ = .ok () :=
  ⟨(bootstrap_waitThreshold_guard ⟨10, 10, true⟩ []).1 (by decide),
   (bootstrap_waitThreshold_guard ⟨2, 10, true⟩ []).2 (by decide)⟩

/-- Helper for C8: `registerCustomModules` succeeds exactly when the supplied
module ids are pairwise distinct and none collides with an already-registered
module. -/
theorem registerCustomModules_isOk (mods : List CustomModule) :
    ∀ regs schemas, (registerCustomModules mods regs schemas).isOk = true ↔
      ((mods.map (fun m => m.id)).Nodup ∧ ∀ m ∈ mods, ∀ r ∈ regs, r.id ≠ m.id) := by
  induction mods with
  | nil =>
    intro regs schemas
    simp [registerCustomModules, Except.isOk, Except.toBool]
  | cons m rest ih =>
    intro regs schemas
    unfold registerCustomModules
    by_cases hdup : regs.any (fun r => r.id == m.id) = true
    · simp only [hdup, if_true]
      simp only [List.any_eq_true, beq_iff_eq] at hdup
      obtain ⟨r, hr, hrid⟩ := hdup
      simp only [Except.isOk, Except.toBool]
      constructor
      · intro h; exact absurd h (by simp)
      · rintro ⟨-, hall⟩
        exact absurd hrid (hall m (List.mem_cons_self m rest) r hr)
    · simp only [hdup, if_false]
      simp only [List.any_eq_true, beq_iff_eq, not_exists, not_and] at hdup
      have key : ∀ schemas2, (registerCustomModules rest (regs ++ [m]) schemas2).isOk = true ↔
          (((m :: rest).map (fun x => x.id)).Nodup ∧
            ∀ x ∈ m :: rest, ∀ r ∈ regs, r.id ≠ x.id) := by
        intro schemas2
        rw [ih]
        simp only [List.map_cons, List.nodup_cons, List.mem_map, List.mem_append,
          List.mem_cons, List.not_mem_nil, or_false]
        constructor
        · rintro ⟨hnd, hall⟩
          refine ⟨⟨?_, hnd⟩, ?_⟩
          · rintro ⟨x, hx, hxid⟩
            exact (hall x hx m (Or.inr rfl)) hxid.symm
          · rintro x (rfl | hx) r hrr
            · exact hdup r hrr
            · exact hall x hx r (Or.inl hrr)
        · rintro ⟨⟨hmem, hnd⟩, hall⟩
          refine ⟨hnd, ?_⟩
          rintro x hx r (hrr | rfl)
          · exact hall x (Or.inr hx) r hrr
          · intro hxid
            exact hmem ⟨x, hx, hxid.symm⟩
      cases has : m.accountSchema with
      | some s => exact key _
      | none => exact key _

/-- Helper for C8: the registered-module list a successful registration
produces is the accumulator extended by the supplied modules in order. -/
theorem registerCustomModules_ok_regs (mods : List CustomModule) :
    ∀ regs schemas r, registerCustomModules mods regs schemas = .ok r →
      r.1 = regs ++ mods := by
  induction mods with
  | nil =>
    intro regs schemas r h
    simp only [registerCustomModules] at h
    cases h
    simp
  | cons m rest ih =>
    intro regs schemas r h
    unfold registerCustomModules at h
    by_cases hdup : regs.any (fun x => x.id == m.id) = true
    · simp [hdup] at h
    · cases has : m.accountSchema with
      | some s =>
        simp only [hdup, Bool.false_eq_true, if_false, has] at h
        rw [ih _ _ r h]
        simp
      | none =>
        simp only [hdup, Bool.false_eq_true, if_false, has] at h
        rw [ih _ _ r h]
        simp

/-- Helper for C8: a schema entry whose name no remaining module carries
survives the rest of the registration. -/
theorem registerCustomModules_schema_survives (mods : List CustomModule) :
    ∀ regs schemas r, registerCustomModules mods regs schemas = .ok r →
      ∀ n sch, (n, sch) ∈ schemas → (∀ m ∈ mods, m.name ≠ n) →
        (n, sch) ∈ r.2 := by
  induction mods with
  | nil =>
    intro regs schemas r h n sch hmem _
    simp only [registerCustomModules] at h
    cases h
    exact hmem
  | cons m rest ih =>
    intro regs schemas r h n sch hmem hnames
    unfold registerCustomModules at h
    by_cases hdup : regs.any (fun x => x.id == m.id) = true
    · simp [hdup] at h
    · cases has : m.accountSchema with
      | some s =>
        simp only [hdup, Bool.false_eq_true, if_false, has] at h
        refine ih _ _ r h n sch ?_ (fun x hx => hnames x (List.mem_cons_of_mem m hx))
        unfold schemaMapInsert
        apply List.mem_append_left
        apply List.mem_filter.mpr
        refine ⟨hmem, ?_⟩
        simp only [bne_iff_ne, ne_eq, decide_not]
        simpa using Ne.symm (hnames m (List.mem_cons_self m rest))
      | none =>
        simp only [hdup, Bool.false_eq_true, if_false, has] at h
        exact ih _ _ r h n sch hmem (fun x hx => hnames x (List.mem_cons_of_mem m hx))

/-- Helper for C8: with pairwise-distinct module names, every schema-bearing
module's entry is present in the final schema map. -/
theorem registerCustomModules_schema_mem (mods : List CustomModule) :
    ∀ regs schemas r, registerCustomModules mods regs schemas = .ok r →
      (mods.map (fun m => m.name)).Nodup →
      ∀ m ∈ mods, ∀ s, m.accountSchema = some s →
        (m.name, { s with fieldNumber := m.id }) ∈ r.2 := by
  induction mods with
  | nil =>
    intro regs schemas r h _ m hm
    simp at hm
  | cons q rest ih =>
    intro regs schemas r h hnames m hm s hs
    have hnames2 : (rest.map (fun m => m.name)).Nodup :=
      (List.nodup_cons.mp (by simpa using hnames)).2
    unfold registerCustomModules at h
    by_cases hdup : regs.any (fun x => x.id == q.id) = true
    · simp [hdup] at h
    · rcases List.mem_cons.mp hm with rfl | hm2
      · simp only [hdup, Bool.false_eq_true, if_false, hs] at h
        refine registerCustomModules_schema_survives rest _ _ r h m.name
          { s with fieldNumber := m.id } ?_ ?_
        · unfold schemaMapInsert
          exact List.mem_append_right _ (List.mem_singleton.mpr rfl)
        · have hq : m.name ∉ rest.map (fun x => x.name) :=
            (List.nodup_cons.mp (by simpa using hnames)).1
          intro x hx heq
          exact hq (List.mem_map.mpr ⟨x, hx, heq⟩)
      · cases has : q.accountSchema with
        | some s2 =>
          simp only [hdup, Bool.false_eq_true, if_false, has] at h
          exact ih _ _ r h hnames2 m hm2 s hs
        | none =>
          simp only [hdup, Bool.false_eq_true, if_false, has] at h
          exact ih _ _ r h hnames2 m hm2 s hs

/-- Helper for C8: writing into the name-keyed map keeps the names pairwise
distinct. -/
theorem schemaMapInsert_names_nodup (schemas : List (String × AccountSchema))
    (moduleName : String) (s : AccountSchema)
    (h : (schemas.map Prod.fst).Nodup) :
    ((schemaMapInsert schemas moduleName s).map Prod.fst).Nodup := by
  unfold schemaMapInsert
  rw [List.map_append]
  apply List.Nodup.append
  · exact List.Nodup.sublist (List.Sublist.map Prod.fst (List.filter_sublist schemas)) h
  · simp
  · intro a ha hb
    simp only [List.map_cons, List.map_nil, List.mem_singleton] at hb
    subst hb
    simp only [List.mem_map, List.mem_filter] at ha
    obtain ⟨p, ⟨-, hp⟩, hpa⟩ := ha
    rw [hpa] at hp
    simp at hp

/-- Helper for C8: a successful registration starting from a name-distinct
schema map ends with a name-distinct schema map (at most one entry per
name). -/
theorem registerCustomModules_names_nodup (mods : List CustomModule) :
    ∀ regs schemas r, (schemas.map Prod.fst).Nodup →
      registerCustomModules mods regs schemas = .ok r →
      (r.2.map Prod.fst).Nodup := by
  induction mods with
  | nil =>
    intro regs schemas r hnd h
    simp only [registerCustomModules] at h
    cases h
    exact hnd
  | cons m rest ih =>
    intro regs schemas r hnd h
    unfold registerCustomModules at h
    by_cases hdup : regs.any (fun x => x.id == m.id) = true
    · simp [hdup] at h
    · cases has : m.accountSchema with
      | some s =>
        simp only [hdup, Bool.false_eq_true, if_false, has] at h
        exact ih _ _ r (schemaMapInsert_names_nodup schemas m.name _ hnd) h
      | none =>
        simp only [hdup, Bool.false_eq_true, if_false, has] at h
        exact ih _ _ r hnd h

/-- Counterexample for C8 as originally stated: the modules with ids 1 and 2
share the name "a"; their ids are pairwise distinct, bootstrap succeeds and
registers both, yet the name-keyed schema map keeps only the later module's
schema, so the first module's entry (fieldNumber 1) is absent from the
result. -/
theorem bootstrap_same_name_schema_lost :
    ((([⟨1, "a", some ⟨0, 5⟩⟩, ⟨2, "a", some ⟨0, 6⟩⟩] : List CustomModule).map
        (fun m => m.id)).Nodup)
    ∧ bootstrap ⟨2, 10, true⟩ [⟨1, "a", some ⟨0, 5⟩⟩, ⟨2, "a", some ⟨0, 6⟩⟩]
        = .ok { registeredModules := [⟨1, "a", some ⟨0, 5⟩⟩, ⟨2, "a", some ⟨0, 6⟩⟩],
                accountSchemas := [("a", ⟨2, 6⟩)], chainInitialized := true }
    ∧ ("a", (⟨1, 5⟩ : AccountSchema)) ∉ [("a", (⟨2, 6⟩ : AccountSchema))] :=
  ⟨by decide, rfl, by decide⟩

/-- C8 (amended): during bootstrap, custom module ids are kept unique: a module
list with two modules sharing an id makes bootstrap fail (so the chain is never
initialized); with pairwise-distinct ids (under the other bootstrap
preconditions) every supplied module is registered exactly once, and the
account schema map — keyed by module name with `fieldNumber` equal to the
module id — holds at most one entry per name, the later registration
overwriting the earlier on a shared name; when module names are also pairwise
distinct, every schema-bearing module's entry is present. -/
theorem bootstrap_module_ids_unique (opts : NodeOptions) (mods : List CustomModule) :
    (¬ (mods.map (fun m => m.id)).Nodup → (bootstrap opts mods).isOk = false)
    ∧ (opts.hasGenesisBlock = true → opts.waitThreshold < opts.blockTime →
        (mods.map (fun m => m.id)).Nodup →
        ∃ res, bootstrap opts mods = .ok res
          ∧ res.registeredModules = mods
          ∧ res.chainInitialized = true
          ∧ (res.accountSchemas.map Prod.fst).Nodup
          ∧ ((mods.map (fun m => m.name)).Nodup →
              ∀ m ∈ mods, ∀ s, m.accountSchema = some s →
                (m.name, { s with fieldNumber := m.id }) ∈ res.accountSchemas)) := by
  constructor
  · intro hdup
    have hnotok : ¬ (registerCustomModules mods [] []).isOk = true := by
      rw [registerCustomModules_isOk]
      rintro ⟨hnd, -⟩
      exact hdup hnd
    unfold bootstrap
    cases hg : opts.hasGenesisBlock
    · simp [Except.isOk, Except.toBool]
    · simp only [Bool.not_true, Bool.false_eq_true, if_false]
      cases hr : registerCustomModules mods [] [] with
      | error e => simp [Except.isOk, Except.toBool]
      | ok r => exact absurd (by rw [hr]; rfl) hnotok
  · intro hg hw hnd
    have hok : (registerCustomModules mods [] []).isOk = true := by
      rw [registerCustomModules_isOk]
      exact ⟨hnd, by simp⟩
    cases hr : registerCustomModules mods [] [] with
    | error e => rw [hr] at hok; simp [Except.isOk, Except.toBool] at hok
    | ok r =>
      obtain ⟨regs, schemas⟩ := r
      have hregs : regs = mods := by
        have := registerCustomModules_ok_regs mods [] [] (regs, schemas) hr
        simpa using this
      refine ⟨{ registeredModules := regs, accountSchemas := schemas,
                chainInitialized := true }, ?_, hregs, rfl, ?_, ?_⟩
      · unfold bootstrap waitThresholdCheck
        simp only [hg, Bool.not_true, Bool.false_eq_true, if_false, hr,
          Nat.not_le.mpr hw, if_false]
      · exact registerCustomModules_names_nodup mods [] [] (regs, schemas) (by simp) hr
      · intro hnames m hm s hs
        exact registerCustomModules_schema_mem mods [] [] (regs, schemas) hr hnames m hm s hs

/-- Witness for C8: a duplicate id makes bootstrap fail; distinct ids and
distinct names register both modules, with the schema-bearing module's entry
present. -/
theorem bootstrap_module_ids_unique_witness :
    (bootstrap ⟨2, 10, true⟩ [⟨4, "a", none⟩, ⟨4, "b", none⟩]).isOk = false
    ∧ ∃ res, bootstrap ⟨2, 10, true⟩ [⟨4, "a", some ⟨0, 9⟩⟩, ⟨5, "b", none⟩] = .ok res
        ∧ res.registeredModules = [⟨4, "a", some ⟨0, 9⟩⟩, ⟨5, "b", none⟩]
        ∧ res.chainInitialized = true
        ∧ (res.accountSchemas.map Prod.fst).Nodup
        ∧ ((([(⟨4, "a", some ⟨0, 9⟩⟩ : CustomModule), ⟨5, "b", none⟩]).map
              (fun m => m.name)).Nodup →
            ∀ m ∈ [(⟨4, "a", some ⟨0, 9⟩⟩ : CustomModule), ⟨5, "b", none⟩], ∀ s,
              m.accountSchema = some s →
              (m.name, { s with fieldNumber := m.id }) ∈ res.accountSchemas) :=
  ⟨(bootstrap_module_ids_unique ⟨2, 10, true⟩ [⟨4, "a", none⟩, ⟨4, "b", none⟩]).1 (by decide),
   (bootstrap_module_ids_unique ⟨2, 10, true⟩ [⟨4, "a", some ⟨0, 9⟩⟩, ⟨5, "b", none⟩]).2
     rfl (by decide) (by decide)⟩

/-! ## Transaction pool events (node.ts, `Node._subscribeToEvents`) -/

/-- A transaction as the pool indexes it: id, sender address, nonce. -/
structure Transaction where
  id : Nat
  senderAddress : Nat
  nonce : Nat
deriving Repr, DecidableEq

/-- Modelled from the spec: `TransactionPool.remove` (the lisk-transaction-pool
package is not under src/).  The pool is keyed by transaction id, so removing a
transaction drops the pool entries carrying its id. -/
def poolRemove (pool : List Transaction) (tx : Transaction) : List Transaction :=
  pool.filter (fun t => t.id != tx.id)

/-- Embedding of the `EVENT_NEW_BLOCK` handler of `Node._subscribeToEvents`
(node.ts lines 617-661): every transaction of the applied block's payload is
removed from the pool via `transactionPool.remove`. -/
def newBlockRemoveFromPool (pool : List Transaction) (payload : List Transaction) :
    List Transaction :=
  payload.foldl poolRemove pool

/-- Modelled from the spec: on `NewBlock` the pool also evicts any transaction
from a sender whose nonce is below the sender's on-chain account nonce (the
pool's reorganization is in lisk-transaction-pool, not under src/). -/
def evictStaleNonces (accountNonce : Nat → Nat) (pool : List Transaction) :
    List Transaction :=
  pool.filter (fun t => accountNonce t.senderAddress ≤ t.nonce)

/-- Combined pool effect of one `NewBlock` event: the node handler's payload
removal followed by the pool's stale-nonce eviction. -/
def onNewBlock (accountNonce : Nat → Nat) (pool payload : List Transaction) :
    List Transaction :=
  evictStaleNonces accountNonce (newBlockRemoveFromPool pool payload)

/-- Modelled from the spec: the duplicate-id rejection of pool admission as
exercised by the transport receive path (the pool-full bound is checked
separately in `receiveTransaction`); lisk-transaction-pool is not under
src/. -/
def poolAdd (pool : List Transaction) (tx : Transaction) :
    Except String (List Transaction) :=
  if pool.any (fun t => t.id == tx.id) then .error "Transaction is already processed"
  else .ok (pool ++ [tx])

/-- Embedding of the `EVENT_DELETE_BLOCK` handler of `Node._subscribeToEvents`
(node.ts lines 664-694): each payload transaction of the reverted block is
passed to `transactionPool.add` inside a try/catch whose catch only logs, so a
failing add leaves the pool of that step unchanged and the remaining
transactions are still processed.  The pool's `add` lives in
lisk-transaction-pool (not under src/) and per the spec may fail or evict for
several reasons (duplicate, stale nonce, per-sender bound, pool-full
eviction), so the handler is embedded parametrically in an arbitrary
admission function `add`. -/
def onDeleteBlock
    (add : List Transaction → Transaction → Except String (List Transaction))
    (pool : List Transaction) (payload : List Transaction) : List Transaction :=
  payload.foldl
    (fun p tx =>
      match add p tx with
      | .ok p2 => p2
      | .error _ => p)
    pool

/-- Helper for C3: a transaction surviving the payload-removal fold was in the
pool and its id matches no payload transaction. -/
theorem mem_newBlockRemoveFromPool (payload : List Transaction) :
    ∀ pool t, t ∈ newBlockRemoveFromPool pool payload →
      t ∈ pool ∧ ∀ p ∈ payload, t.id ≠ p.id := by
  induction payload with
  | nil =>
    intro pool t ht
    exact ⟨ht, by simp⟩
  | cons q rest ih =>
    intro pool t ht
    have hstep := ih (poolRemove pool q) t ht
    obtain ⟨hmem, hrest⟩ := hstep
    simp only [poolRemove, List.mem_filter, bne_iff_ne, ne_eq, decide_eq_true_eq] at hmem
    refine ⟨hmem.1, ?_⟩
    intro p hp
    rcases List.mem_cons.mp hp with rfl | hp2
    · simpa using hmem.2
    · exact hrest p hp2

/-- C3: after the pool effect of a `NewBlock` event, every surviving pool
transaction has an id distinct from every payload transaction (in particular
the pool contains no transaction included in the applied block) and a nonce at
least the sender's on-chain account nonce; payload transactions and stale
nonces have been evicted. -/
theorem onNewBlock_evicts (accountNonce : Nat → Nat)
    (pool payload : List Transaction) (t : Transaction)
    (ht : t ∈ onNewBlock accountNonce pool payload) :
    (∀ p ∈ payload, t.id ≠ p.id) ∧ accountNonce t.senderAddress ≤ t.nonce := by
  unfold onNewBlock evictStaleNonces at ht
  simp only [List.mem_filter, decide_eq_true_eq] at ht
  obtain ⟨hmem, hnonce⟩ := ht
  exact ⟨(mem_newBlockRemoveFromPool payload pool t hmem).2, hnonce⟩

/-- Witness for C3: in a concrete pool, the transaction neither included in the
block nor nonce-stale survives and satisfies the eviction guarantees. -/
theorem onNewBlock_evicts_witness :
    (∀ p ∈ [(⟨2, 8, 0⟩ : Transaction)], (⟨1, 5, 3⟩ : Transaction).id ≠ p.id)
    ∧ (fun _ => 2) (⟨1, 5, 3⟩ : Transaction).senderAddress ≤ (⟨1, 5, 3⟩ : Transaction).nonce :=
  onNewBlock_evicts (fun _ => 2) [⟨1, 5, 3⟩, ⟨2, 8, 0⟩, ⟨3, 5, 1⟩] [⟨2, 8, 0⟩]
    ⟨1, 5, 3⟩ (by decide)

/-- Helper for C4: the replay fold splits across payload concatenation. -/
theorem onDeleteBlock_append
    (add : List Transaction → Transaction → Except String (List Transaction))
    (pool : List Transaction) (l1 l2 : List Transaction) :
    onDeleteBlock add pool (l1 ++ l2)
      = onDeleteBlock add (onDeleteBlock add pool l1) l2 := by
  unfold onDeleteBlock
  rw [List.foldl_append]

/-- C4: on `DeleteBlock`, each payload transaction is handed to the pool's
admission function in order, whatever that function's failure modes: a
re-admission that fails at its turn (an already-present duplicate included) is
silently dropped — the final pool is exactly the one obtained by skipping the
failing transaction while the remaining transactions are still re-admitted —
and a re-admission that succeeds is incorporated; the handler is a total
function, so no admission failure propagates out of it. -/
theorem onDeleteBlock_readmits
    (add : List Transaction → Transaction → Except String (List Transaction))
    (pool payload1 payload2 : List Transaction) (tx : Transaction) :
    (∀ e, add (onDeleteBlock add pool payload1) tx = .error e →
        onDeleteBlock add pool (payload1 ++ tx :: payload2)
          = onDeleteBlock add pool (payload1 ++ payload2))
    ∧ (∀ p2, add (onDeleteBlock add pool payload1) tx = .ok p2 →
        onDeleteBlock add pool (payload1 ++ tx :: payload2)
          = onDeleteBlock add p2 payload2) := by
  constructor
  · intro e he
    rw [onDeleteBlock_append add pool payload1 (tx :: payload2),
      onDeleteBlock_append add pool payload1 payload2]
    unfold onDeleteBlock at he ⊢
    simp only [List.foldl_cons, he]
  · intro p2 hp
    rw [onDeleteBlock_append add pool payload1 (tx :: payload2)]
    unfold onDeleteBlock at hp ⊢
    simp only [List.foldl_cons, hp]

/-- Witness for C4: with the duplicate-rejecting admission, replaying a payload
whose first transaction is already present drops it silently while the second
is still re-admitted, and a succeeding admission is incorporated. -/
theorem onDeleteBlock_readmits_witness :
    (onDeleteBlock poolAdd [⟨1, 0, 0⟩] ([] ++ (⟨1, 0, 0⟩ : Transaction) :: [⟨2, 0, 1⟩])
      = onDeleteBlock poolAdd [⟨1, 0, 0⟩] ([] ++ [⟨2, 0, 1⟩]))
    ∧ (onDeleteBlock poolAdd [⟨1, 0, 0⟩] ([] ++ (⟨2, 0, 1⟩ : Transaction) :: [])
      = onDeleteBlock poolAdd [(⟨1, 0, 0⟩ : Transaction), ⟨2, 0, 1⟩] []) :=
  ⟨(onDeleteBlock_readmits poolAdd [⟨1, 0, 0⟩] [] [⟨2, 0, 1⟩] ⟨1, 0, 0⟩).1
      "Transaction is already processed" rfl,
   (onDeleteBlock_readmits poolAdd [⟨1, 0, 0⟩] [] [] ⟨2, 0, 1⟩).2
      [⟨1, 0, 0⟩, ⟨2, 0, 1⟩] rfl⟩

/-! ## Transport handlers

The Transport implementation sits outside src/ (only its unit test and its
callers in node.ts are present), so the handlers are modelled from the spec
and exercised against the behaviour pinned by the test file
framework/test/mocha/unit/application/node/transport/transport.js. -/

/-- A stored block header: id and height. -/
structure BlockHeader where
  id : Nat
  height : Nat
deriving Repr, DecidableEq

/-- A peer penalty as applied through `app:applyPenaltyOnPeer`. -/
structure Penalty where
  peerId : String
  penalty : Nat
deriving Repr, DecidableEq

/-- Modelled from the spec: `dataAccess.getBlocksByHeightBetween` returns the
blocks stored at each height of the inclusive range (lisk-chain is not under
src/).  `store` maps a height to the block stored there, if any. -/
def getBlocksByHeightBetween (store : Nat → Option BlockHeader) (fromHeight toHeight : Nat) :
    List BlockHeader :=
  (List.range' fromHeight (toHeight + 1 - fromHeight)).filterMap store

/-- Modelled from the spec: `Transport.handleRPCGetBlocksFromId` (Transport is
not under src/): a query without a `blockId` is a schema failure that applies
penalty 100 to the peer and rejects; otherwise the parent block header is
looked up by id and the blocks stored at heights `parentHeight + 1` through
`parentHeight + 34` are returned.  The second component collects the peer
penalties applied. -/
def handleRPCGetBlocksFromId (store : Nat → Option BlockHeader)
    (byId : Nat → Option BlockHeader) (query : Option Nat) (peerId : String) :
    Except String (List BlockHeader) × List Penalty :=
  match query with
  | none => (.error "should have required property blockId", [⟨peerId, 100⟩])
  | some blockId =>
    match byId blockId with
    | none => (.error "Block not found", [])
    | some parent =>
      (.ok (getBlocksByHeightBetween store (parent.height + 1) (parent.height + 34)), [])

/-- A posted block as it arrives from the network: whether its id field passes
schema validation, plus the decoded header. -/
structure PostBlockQuery where
  blockIdValid : Bool
  block : BlockHeader
deriving Repr, DecidableEq

/-- Modelled from the spec: `Transport.handleEventPostBlock` (Transport is not
under src/): a no-op when block broadcasts are disabled; a block whose id fails
schema validation applies penalty 100 to the peer and rejects; a valid block is
handed to `processor.process` (returned as `some`). -/
def handleEventPostBlock (broadcastsActive : Bool) (query : PostBlockQuery)
    (peerId : String) : Except String (Option BlockHeader) × List Penalty :=
  if !broadcastsActive then (.ok none, [])
  else if !query.blockIdValid then
    (.error "should match format id", [⟨peerId, 100⟩])
  else (.ok (some query.block), [])

/-- Embedding of the `app:network:event` subscriber of `Node.bootstrap`
(node.ts lines 246-272): the transport handler runs inside a try/catch whose
catch only logs, so an inbound event never fails the node; the handler's
penalties are still applied. -/
def onNetworkEvent {α : Type} (handler : Except String α × List Penalty) :
    Option α × List Penalty :=
  match handler with
  | (.ok a, ps) => (some a, ps)
  | (.error _, ps) => (none, ps)

/-- Result object of `handleEventPostTransaction`. -/
structure PostTxResult where
  transactionId : Option Nat
  errors : Option String
deriving Repr, DecidableEq

/-- Modelled from the spec: `Transport._receiveTransaction` (Transport is not
under src/): statically validate the transaction, then admit it to the pool;
admission fails when the pool is full or the transaction is already present.
On success the transaction id and the new pool are returned. -/
def receiveTransaction (validationError : Transaction → Option String)
    (pool : List Transaction) (maxPoolSize : Nat) (tx : Transaction) :
    Except String (Nat × List Transaction) :=
  match validationError tx with
  | some e => .error e
  | none =>
    if maxPoolSize ≤ pool.length then .error "Transaction pool is full"
    else
      match poolAdd pool tx with
      | .error e => .error e
      | .ok p2 => .ok (tx.id, p2)

/-- Modelled from the spec: `Transport.handleEventPostTransaction` (Transport
is not under src/): it resolves with the transaction id on success and with an
object carrying the errors on any receive failure; being a total function into
`PostTxResult`, it never throws. -/
def handleEventPostTransaction (validationError : Transaction → Option String)
    (pool : List Transaction) (maxPoolSize : Nat) (tx : Transaction) : PostTxResult :=
  match receiveTransaction validationError pool maxPoolSize tx with
  | .ok (i, _) => { transactionId := some i, errors := none }
  | .error e => { transactionId := none, errors := some e }

/-- C5: when the queried id resolves to a stored parent block of height h,
`handleRPCGetBlocksFromId` succeeds with at most 34 blocks, exactly the blocks
stored at heights h+1 through h+34 inclusive. -/
theorem handleRPCGetBlocksFromId_range (store : Nat → Option BlockHeader)
    (byId : Nat → Option BlockHeader) (blockId : Nat) (peerId : String)
    (parent : BlockHeader) (hparent : byId blockId = some parent) :
    ∃ bs, (handleRPCGetBlocksFromId store byId (some blockId) peerId).1 = .ok bs
      ∧ bs.length ≤ 34
      ∧ ∀ b, b ∈ bs ↔
          ∃ k, parent.height + 1 ≤ k ∧ k ≤ parent.height + 34 ∧ store k = some b := by
  refine ⟨getBlocksByHeightBetween store (parent.height + 1) (parent.height + 34),
    ?_, ?_, ?_⟩
  · simp [handleRPCGetBlocksFromId, hparent]
  · unfold getBlocksByHeightBetween
    calc (List.filterMap store
            (List.range' (parent.height + 1) (parent.height + 34 + 1 - (parent.height + 1)))).length
        ≤ (List.range' (parent.height + 1) (parent.height + 34 + 1 - (parent.height + 1))).length :=
          List.length_filterMap_le _ _
      _ ≤ 34 := by rw [List.length_range']; omega
  · intro b
    unfold getBlocksByHeightBetween
    rw [List.mem_filterMap]
    constructor
    · rintro ⟨k, hk, hsk⟩
      rw [List.mem_range'_1] at hk
      exact ⟨k, by omega, by omega, hsk⟩
    · rintro ⟨k, h1, h2, hsk⟩
      exact ⟨k, List.mem_range'_1.mpr ⟨by omega, by omega⟩, hsk⟩

/-- Witness for C5 at a concrete store whose parent block has height 3. -/
theorem handleRPCGetBlocksFromId_range_witness :
    ∃ bs, (handleRPCGetBlocksFromId (fun k => if k ≤ 40 then some ⟨100 + k, k⟩ else none)
        (fun _ => some ⟨77, 3⟩) (some 77) "peer-id").1 = .ok bs
      ∧ bs.length ≤ 34
      ∧ ∀ b, b ∈ bs ↔ ∃ k, (⟨77, 3⟩ : BlockHeader).height + 1 ≤ k
          ∧ k ≤ (⟨77, 3⟩ : BlockHeader).height + 34
          ∧ (fun k => if k ≤ 40 then some (⟨100 + k, k⟩ : BlockHeader) else none) k = some b :=
  handleRPCGetBlocksFromId_range (fun k => if k ≤ 40 then some ⟨100 + k, k⟩ else none)
    (fun _ => some ⟨77, 3⟩) 77 "peer-id" ⟨77, 3⟩ rfl

/-- C6: a transport message whose payload fails schema validation — a
`getBlocksFromId` query with no `blockId`, or a posted block whose id has the
wrong format — applies exactly penalty 100 to the sending peer and makes the
handler reject, while the node-level network-event subscriber still returns
normally (the error is caught and only logged). -/
theorem malformed_payload_penalty (store byId : Nat → Option BlockHeader)
    (peerId : String) (q : PostBlockQuery) (hq : q.blockIdValid = false) :
    ((handleRPCGetBlocksFromId store byId none peerId).1.isOk = false
      ∧ onNetworkEvent (handleRPCGetBlocksFromId store byId none peerId)
          = (none, [⟨peerId, 100⟩]))
    ∧ ((handleEventPostBlock true q peerId).1.isOk = false
      ∧ onNetworkEvent (handleEventPostBlock true q peerId)
          = (none, [⟨peerId, 100⟩])) := by
  constructor
  · constructor
    · rfl
    · rfl
  · constructor
    · unfold handleEventPostBlock
      simp [hq, Except.isOk, Except.toBool]
    · unfold handleEventPostBlock onNetworkEvent
      simp [hq]

/-- Witness for C6 with a concrete invalid posted block. -/
theorem malformed_payload_penalty_witness :
    ((handleRPCGetBlocksFromId (fun _ => none) (fun _ => none) none "peer-id").1.isOk = false
      ∧ onNetworkEvent (handleRPCGetBlocksFromId (fun _ => none) (fun _ => none) none "peer-id")
          = (none, [⟨"peer-id", 100⟩]))
    ∧ ((handleEventPostBlock true ⟨false, ⟨1, 1⟩⟩ "peer-id").1.isOk = false
      ∧ onNetworkEvent (handleEventPostBlock true ⟨false, ⟨1, 1⟩⟩ "peer-id")
          = (none, [⟨"peer-id", 100⟩])) :=
  malformed_payload_penalty (fun _ => none) (fun _ => none) "peer-id" ⟨false, ⟨1, 1⟩⟩ rfl

/-- C7: `handleEventPostTransaction` is total over failures of the receive
path: it always resolves with an object carrying either the transaction id or
the errors; any receive failure (the full-pool failure included) yields the
errors without propagating, and a successful receive yields the transaction
id. -/
theorem handleEventPostTransaction_total (validationError : Transaction → Option String)
    (pool : List Transaction) (maxPoolSize : Nat) (tx : Transaction) :
    ((handleEventPostTransaction validationError pool maxPoolSize tx).transactionId.isSome = true
      ∨ (handleEventPostTransaction validationError pool maxPoolSize tx).errors.isSome = true)
    ∧ (∀ i p2, receiveTransaction validationError pool maxPoolSize tx = .ok (i, p2) →
        handleEventPostTransaction validationError pool maxPoolSize tx
          = { transactionId := some tx.id, errors := none })
    ∧ (∀ e, receiveTransaction validationError pool maxPoolSize tx = .error e →
        handleEventPostTransaction validationError pool maxPoolSize tx
          = { transactionId := none, errors := some e })
    ∧ (validationError tx = none → maxPoolSize ≤ pool.length →
        handleEventPostTransaction validationError pool maxPoolSize tx
          = { transactionId := none, errors := some "Transaction pool is full" }) := by
  refine ⟨?_, ?_, ?_, ?_⟩
  · unfold handleEventPostTransaction
    cases h : receiveTransaction validationError pool maxPoolSize tx with
    | ok v => cases v; left; rfl
    | error e => right; rfl
  · intro i p2 h
    have hid : i = tx.id := by
      unfold receiveTransaction at h
      cases hv : validationError tx with
      | some e => rw [hv] at h; exact absurd h (by simp)
      | none =>
        rw [hv] at h
        by_cases hf : maxPoolSize ≤ pool.length
        · rw [if_pos hf] at h
          exact absurd h (by simp)
        · rw [if_neg hf] at h
          cases hp : poolAdd pool tx with
          | error e => rw [hp] at h; exact absurd h (by simp)
          | ok p => rw [hp] at h; cases h; rfl
    unfold handleEventPostTransaction
    rw [h, hid]
  · intro e h
    unfold handleEventPostTransaction
    rw [h]
  · intro hv hf
    unfold handleEventPostTransaction receiveTransaction
    rw [hv, if_pos hf]

/-- Witness for C7: a successful receive resolves with the transaction id, and
a full pool resolves with the full-pool error. -/
theorem handleEventPostTransaction_total_witness :
    (handleEventPostTransaction (fun _ => none) [] 10 ⟨5, 0, 0⟩
        = { transactionId := some (5 : Nat), errors := none })
    ∧ (handleEventPostTransaction (fun _ => none) [⟨1, 0, 0⟩] 1 ⟨5, 0, 0⟩
        = { transactionId := none, errors := some "Transaction pool is full" }) :=
  ⟨(handleEventPostTransaction_total (fun _ => none) [] 10 ⟨5, 0, 0⟩).2.1
      5 [⟨5, 0, 0⟩] rfl,
   (handleEventPostTransaction_total (fun _ => none) [⟨1, 0, 0⟩] 1 ⟨5, 0, 0⟩).2.2.2
      rfl (by decide)⟩

/-! ## getValidators action (node.ts, `Node.actions.getValidators`) -/

/-- Modelled from the spec: slot number of a time under `chain.slots`
(lisk-chain is not under src/): the slot is floor(now / blockTime). -/
def getSlotNumber (blockTime now : Nat) : Nat := now / blockTime

/-- Modelled from the spec: start time of a slot: slot * blockTime. -/
def getSlotTime (blockTime slot : Nat) : Nat := slot * blockTime

/-- Embedding of `Node.actions.getValidators` (node.ts lines 292-313): compute
the current slot and its start time, then walk `i` from `slot mod
numberOfValidators` for `numberOfValidators` steps, pairing the validator at
index `i mod validatorAddresses.length` with a forging time that starts at the
slot start and advances by `blockTime` per entry. -/
def getValidators (validatorAddresses : List Nat)
    (numberOfValidators blockTime now : Nat) : List (Nat × Nat) :=
  let slot := getSlotNumber blockTime now
  let startTime := getSlotTime blockTime slot
  let slotInRound := slot % numberOfValidators
  (List.range numberOfValidators).map fun k =>
    (validatorAddresses.getD ((slotInRound + k) % validatorAddresses.length) 0,
      startTime + k * blockTime)

/-- C9: `getValidators` returns exactly `numberOfValidators` entries; their
forging times form the arithmetic progression starting at the current slot's
start time with common difference `blockTime`, strictly increasing; and the
first entry is the validator at index `slot mod numberOfValidators`. -/
theorem getValidators_progression (validatorAddresses : List Nat)
    (numberOfValidators blockTime now : Nat)
    (hbt : 0 < blockTime)
    (hlen : validatorAddresses.length = numberOfValidators)
    (hn : 0 < numberOfValidators) :
    (getValidators validatorAddresses numberOfValidators blockTime now).length
        = numberOfValidators
    ∧ (∀ k, k < numberOfValidators →
        ((getValidators validatorAddresses numberOfValidators blockTime now).getD k (0, 0)).2
          = getSlotTime blockTime (getSlotNumber blockTime now) + k * blockTime)
    ∧ (∀ k, k + 1 < numberOfValidators →
        ((getValidators validatorAddresses numberOfValidators blockTime now).getD k (0, 0)).2
          < ((getValidators validatorAddresses numberOfValidators blockTime now).getD
              (k + 1) (0, 0)).2)
    ∧ ((getValidators validatorAddresses numberOfValidators blockTime now).getD 0 (0, 0)).1
        = validatorAddresses.getD (getSlotNumber blockTime now % numberOfValidators) 0 := by
  have hget : ∀ k, k < numberOfValidators →
      (getValidators validatorAddresses numberOfValidators blockTime now).getD k (0, 0)
        = (validatorAddresses.getD
            ((getSlotNumber blockTime now % numberOfValidators + k)
              % validatorAddresses.length) 0,
          getSlotTime blockTime (getSlotNumber blockTime now) + k * blockTime) := by
    intro k hk
    unfold getValidators
    simp [List.getD_eq_getElem?_getD, List.getElem?_map, List.getElem?_range, hk]
  refine ⟨?_, ?_, ?_, ?_⟩
  · unfold getValidators
    simp
  · intro k hk
    rw [hget k hk]
  · intro k hk
    rw [hget k (by omega), hget (k + 1) hk]
    simp only [Nat.succ_mul]
    omega
  · rw [hget 0 hn]
    rw [hlen]
    simp [Nat.mod_mod_of_dvd _ dvd_rfl]

/-- Witness for C9 with three validators, blockTime 10, now 45 (slot 4). -/
theorem getValidators_progression_witness :
    (getValidators [10, 20, 30] 3 10 45).length = 3
    ∧ (∀ k, k < 3 → ((getValidators [10, 20, 30] 3 10 45).getD k (0, 0)).2
        = getSlotTime 10 (getSlotNumber 10 45) + k * 10)
    ∧ (∀ k, k + 1 < 3 → ((getValidators [10, 20, 30] 3 10 45).getD k (0, 0)).2
        < ((getValidators [10, 20, 30] 3 10 45).getD (k + 1) (0, 0)).2)
    ∧ ((getValidators [10, 20, 30] 3 10 45).getD 0 (0, 0)).1
        = List.getD [10, 20, 30] (getSlotNumber 10 45 % 3) 0 :=
  getValidators_progression [10, 20, 30] 3 10 45 (by decide) (by decide) (by decide)

/-! ## registerMultisignature (elements/lisk-transactions,
register_multisignature_account.ts)

Public keys are embedded as `Nat`; nonce, fee and networkIdentifier are
embedded as naturals, so the string-format checks `isValidNonce`,
`isValidFee`, `isValidInteger` and `validateNetworkIdentifier` of
lisk-validator (not under src/) hold by construction and are omitted. -/

/-- Bounds MIN/MAX_NUMBER_OF_SIGNATURES and MIN/MAX_NUMBER_OF_KEYS.  Modelled
from the spec: the constants file of lisk-transactions is not under src/, so
the bounds are kept abstract. -/
structure MultisigConstants where
  minNumberOfSignatures : Nat
  maxNumberOfSignatures : Nat
  minNumberOfKeys : Nat
  maxNumberOfKeys : Nat
deriving Repr, DecidableEq

/-- Inputs of `registerMultisignature` (register_multisignature_account.ts).
`senderPassphrase` and `passphrases` are optional to model the falsy guard of
the source. -/
structure RegisterMultisignatureInputs where
  senderPassphrase : Option String
  passphrases : Option (List String)
  mandatoryKeys : List Nat
  optionalKeys : List Nat
  numberOfSignatures : Nat
  networkIdentifier : Nat
  nonce : Nat
  fee : Nat
deriving Repr, DecidableEq

/-- Embedding of `findRepeatedKeys` of the lisk-transactions utils (the file is
not under src/; behaviour pinned by its call site): the keys of the first list
that also occur in the second. -/
def findRepeatedKeys (keysA keysB : List Nat) : List Nat :=
  keysA.filter fun k => keysB.contains k

/-- Embedding of `validateInputs` (register_multisignature_account.ts lines
52-124), checks in source order; the lisk-validator format checks hold by
construction (see the section comment). -/
def validateInputs (c : MultisigConstants) (i : RegisterMultisignatureInputs) :
    Except String Unit :=
  if i.numberOfSignatures < c.minNumberOfSignatures
      ∨ c.maxNumberOfSignatures < i.numberOfSignatures then
    .error "Please provide a valid numberOfSignatures value."
  else if i.numberOfSignatures < i.mandatoryKeys.length then
    .error "The numberOfSignatures should be more than or equal to the number of mandatory passphrases."
  else if i.mandatoryKeys.length + i.optionalKeys.length < i.numberOfSignatures then
    .error "numberOfSignatures is bigger than the count of optional and mandatory keys."
  else if c.maxNumberOfKeys < i.mandatoryKeys.length + i.optionalKeys.length
      ∨ i.mandatoryKeys.length + i.optionalKeys.length < c.minNumberOfKeys then
    .error "Please provide a valid number of mandatory and optional keys."
  else if 0 < (findRepeatedKeys i.optionalKeys i.mandatoryKeys).length then
    .error "There are repeated values in optional and mandatory keys"
  else if i.mandatoryKeys.dedup.length < i.mandatoryKeys.length then
    .error "There are repeated mandatory public keys"
  else if i.optionalKeys.dedup.length < i.optionalKeys.length then
    .error "There are repeated optional public keys"
  else .ok ()

/-- Asset of a type-12 (multisignature registration) transaction. -/
structure MultisigTxAsset where
  mandatoryKeys : List Nat
  optionalKeys : List Nat
  numberOfSignatures : Nat
deriving Repr, DecidableEq

/-- A multisignature registration transaction as returned to the caller.
`txType` embeds the source's `type` field. -/
structure MultisigTx where
  txType : Nat
  nonce : Nat
  fee : Nat
  asset : MultisigTxAsset
  signed : Bool
deriving Repr, DecidableEq

/-- Embedding of `registerMultisignature`
(register_multisignature_account.ts lines 126-174): validate the inputs, build
the type-12 transaction carrying the keys and `numberOfSignatures` in its
asset, and sign it only when both `senderPassphrase` and `passphrases` are
present. -/
def registerMultisignature (c : MultisigConstants)
    (i : RegisterMultisignatureInputs) : Except String MultisigTx :=
  match validateInputs c i with
  | .error e => .error e
  | .ok _ =>
    if i.passphrases.isNone ∨ i.senderPassphrase.isNone then
      .ok { txType := 12, nonce := i.nonce, fee := i.fee,
            asset := { mandatoryKeys := i.mandatoryKeys, optionalKeys := i.optionalKeys,
                       numberOfSignatures := i.numberOfSignatures },
            signed := false }
    else
      .ok { txType := 12, nonce := i.nonce, fee := i.fee,
            asset := { mandatoryKeys := i.mandatoryKeys, optionalKeys := i.optionalKeys,
                       numberOfSignatures := i.numberOfSignatures },
            signed := true }

/-- The claim's admissibility condition on the inputs, stated from its words
(compared with `validateInputs` in the C10 theorem). -/
def MultisigInputsValid (c : MultisigConstants) (i : RegisterMultisignatureInputs) : Prop :=
  c.minNumberOfSignatures ≤ i.numberOfSignatures
  ∧ i.numberOfSignatures ≤ c.maxNumberOfSignatures
  ∧ i.mandatoryKeys.length ≤ i.numberOfSignatures
  ∧ i.numberOfSignatures ≤ i.mandatoryKeys.length + i.optionalKeys.length
  ∧ c.minNumberOfKeys ≤ i.mandatoryKeys.length + i.optionalKeys.length
  ∧ i.mandatoryKeys.length + i.optionalKeys.length ≤ c.maxNumberOfKeys
  ∧ (∀ k ∈ i.mandatoryKeys, k ∉ i.optionalKeys)
  ∧ i.mandatoryKeys.Nodup
  ∧ i.optionalKeys.Nodup

/-- Helper for C10: a strict drop in deduplicated length is exactly the
presence of a repeated element. -/
theorem dedup_length_lt_iff (l : List Nat) : l.dedup.length < l.length ↔ ¬ l.Nodup := by
  constructor
  · intro h hnd
    rw [List.dedup_eq_self.mpr hnd] at h
    omega
  · intro hnd
    rcases Nat.lt_or_ge l.dedup.length l.length with h | h
    · exact h
    · exact absurd (List.dedup_eq_self.mp
        (l.dedup_sublist.eq_of_length (Nat.le_antisymm l.dedup_sublist.length_le h))) hnd

/-- Helper for C10: no repeated keys across the two lists means the filter of
shared keys is empty. -/
theorem findRepeatedKeys_length_eq_zero (keysA keysB : List Nat) :
    ¬ 0 < (findRepeatedKeys keysA keysB).length ↔ ∀ k ∈ keysB, k ∉ keysA := by
  unfold findRepeatedKeys
  rw [Nat.not_lt, Nat.le_zero, List.length_eq_zero, List.filter_eq_nil_iff]
  constructor
  · intro h k hkB hkA
    exact h k hkA (by simpa using hkB)
  · intro h k hkA hkB
    exact h k (by simpa using hkB) hkA

/-- Helper for C10: `validateInputs` succeeds exactly on the claim's
admissibility condition. -/
theorem validateInputs_ok_iff (c : MultisigConstants) (i : RegisterMultisignatureInputs) :
    validateInputs c i = .ok () ↔ MultisigInputsValid c i := by
  unfold validateInputs MultisigInputsValid
  constructor
  · intro h
    split at h
    next hc1 => exact absurd h (by simp)
    next hc1 =>
      split at h
      next hc2 => exact absurd h (by simp)
      next hc2 =>
        split at h
        next hc3 => exact absurd h (by simp)
        next hc3 =>
          split at h
          next hc4 => exact absurd h (by simp)
          next hc4 =>
            split at h
            next hc5 => exact absurd h (by simp)
            next hc5 =>
              split at h
              next hc6 => exact absurd h (by simp)
              next hc6 =>
                split at h
                next hc7 => exact absurd h (by simp)
                next hc7 =>
                  refine ⟨by omega, by omega, by omega, by omega, by omega, by omega,
                    (findRepeatedKeys_length_eq_zero i.optionalKeys i.mandatoryKeys).mp hc5,
                    ?_, ?_⟩
                  · by_contra hnd
                    exact hc6 ((dedup_length_lt_iff i.mandatoryKeys).mpr hnd)
                  · by_contra hnd
                    exact hc7 ((dedup_length_lt_iff i.optionalKeys).mpr hnd)
  · rintro ⟨h1, h2, h3, h4, h5, h6, h7, h8, h9⟩
    rw [if_neg (by omega), if_neg (by omega), if_neg (by omega), if_neg (by omega),
      if_neg ((findRepeatedKeys_length_eq_zero i.optionalKeys i.mandatoryKeys).mpr h7),
      if_neg (fun hlt => (dedup_length_lt_iff i.mandatoryKeys).mp hlt h8),
      if_neg (fun hlt => (dedup_length_lt_iff i.optionalKeys).mp hlt h9)]

/-- C10: `registerMultisignature` succeeds exactly when the inputs satisfy the
admissibility condition (numberOfSignatures within the allowed bounds, at
least the mandatory-key count and at most the total key count; total keys
within the allowed bounds; no key shared between or repeated within the two
key lists), and a successful result is a type-12 transaction carrying exactly
the given keys and numberOfSignatures in its asset, unsigned whenever
`senderPassphrase` or `passphrases` is absent. -/
theorem registerMultisignature_spec (c : MultisigConstants)
    (i : RegisterMultisignatureInputs) :
    ((registerMultisignature c i).isOk = true ↔ MultisigInputsValid c i)
    ∧ (∀ tx, registerMultisignature c i = .ok tx →
        tx.txType = 12
        ∧ tx.asset.mandatoryKeys = i.mandatoryKeys
        ∧ tx.asset.optionalKeys = i.optionalKeys
        ∧ tx.asset.numberOfSignatures = i.numberOfSignatures
        ∧ ((i.senderPassphrase.isNone ∨ i.passphrases.isNone) → tx.signed = false)) := by
  constructor
  · constructor
    · intro hok
      unfold registerMultisignature at hok
      cases hval : validateInputs c i with
      | error e =>
        rw [hval] at hok
        simp [Except.isOk, Except.toBool] at hok
      | ok u =>
        cases u
        exact (validateInputs_ok_iff c i).mp hval
    · intro hv
      have hval := (validateInputs_ok_iff c i).mpr hv
      unfold registerMultisignature
      simp only [hval]
      by_cases hp : i.passphrases.isNone ∨ i.senderPassphrase.isNone
      · rw [if_pos hp]; rfl
      · rw [if_neg hp]; rfl
  · intro tx htx
    unfold registerMultisignature at htx
    cases hval : validateInputs c i with
    | error e =>
      rw [hval] at htx
      simp at htx
    | ok u =>
      cases u
      simp only [hval] at htx
      by_cases hp : i.passphrases.isNone ∨ i.senderPassphrase.isNone
      · rw [if_pos hp] at htx
        injection htx with h2
        subst h2
        exact ⟨rfl, rfl, rfl, rfl, fun _ => rfl⟩
      · rw [if_neg hp] at htx
        injection htx with h2
        subst h2
        refine ⟨rfl, rfl, rfl, rfl, ?_⟩
        intro hnone
        exact absurd hnone.symm hp

/-- Witness for C10: an admissible unsigned registration with two mandatory
keys, one optional key and two required signatures. -/
theorem registerMultisignature_spec_witness :
    (⟨12, 0, 0, ⟨[1, 2], [3], 2⟩, false⟩ : MultisigTx).txType = 12
    ∧ (⟨12, 0, 0, ⟨[1, 2], [3], 2⟩, false⟩ : MultisigTx).asset.mandatoryKeys
        = (⟨none, none, [1, 2], [3], 2, 0, 0, 0⟩ : RegisterMultisignatureInputs).mandatoryKeys
    ∧ (⟨12, 0, 0, ⟨[1, 2], [3], 2⟩, false⟩ : MultisigTx).asset.optionalKeys
        = (⟨none, none, [1, 2], [3], 2, 0, 0, 0⟩ : RegisterMultisignatureInputs).optionalKeys
    ∧ (⟨12, 0, 0, ⟨[1, 2], [3], 2⟩, false⟩ : MultisigTx).asset.numberOfSignatures
        = (⟨none, none, [1, 2], [3], 2, 0, 0, 0⟩ : RegisterMultisignatureInputs).numberOfSignatures
    ∧ (((⟨none, none, [1, 2], [3], 2, 0, 0, 0⟩ : RegisterMultisignatureInputs).senderPassphrase.isNone
        ∨ (⟨none, none, [1, 2], [3], 2, 0, 0, 0⟩ : RegisterMultisignatureInputs).passphrases.isNone) →
        (⟨12, 0, 0, ⟨[1, 2], [3], 2⟩, false⟩ : MultisigTx).signed = false) :=
  (registerMultisignature_spec ⟨1, 64, 1, 64⟩ ⟨none, none, [1, 2], [3], 2, 0, 0, 0⟩).2
    ⟨12, 0, 0, ⟨[1, 2], [3], 2⟩, false⟩ rfl
